import Mathlib

/-!
Verification of the Filofax weekly-calendar generator
(src/filofax_generator.py) against its specification.

Shallow embedding conventions:
* Calendar dates are represented by their rata-die number (days counted
  from 1, with day 1 = 0001-01-01 of the proleptic Gregorian calendar,
  which is a Monday).  This models Python `datetime` values; adding a
  `timedelta(days = n)` is addition on the rata-die number.
* Physical lengths are measured in hundredths of a centimetre, as
  integers.  Every length occurring in the source is an exact multiple
  of 0.01 cm (letter paper is 21.59 cm by 27.94 cm), and every division
  in the source is exact at this scale, so the program's floating-point
  arithmetic is modelled by exact integer arithmetic.
-/

namespace Filofax

/-! ## Calendar arithmetic (model of Python `datetime`) -/

/-- Gregorian leap-year rule. -/
def isLeap (y : Nat) : Bool :=
  (y % 4 == 0 && y % 100 != 0) || y % 400 == 0

/-- Number of days in month `m` of year `y` (months are 1..12). -/
def daysInMonth (y m : Nat) : Nat :=
  if m = 2 then (if isLeap y then 29 else 28)
  else if m = 4 ∨ m = 6 ∨ m = 9 ∨ m = 11 then 30
  else 31

/-- Days in year `y` strictly before month `m`. -/
def daysBeforeMonth (y m : Nat) : Nat :=
  match m with
  | 0 => 0
  | n + 1 => if n = 0 then 0 else daysBeforeMonth y n + daysInMonth y n

/-- Days strictly before January 1 of year `y`, counted from 0001-01-01. -/
def daysBeforeYear (y : Nat) : Nat :=
  365 * (y - 1) + (y - 1) / 4 - (y - 1) / 100 + (y - 1) / 400

/-- Rata-die number of the calendar date `y-m-d` (0001-01-01 has number 1). -/
def toRD (y m d : Nat) : Nat :=
  daysBeforeYear y + daysBeforeMonth y m + d

/-- Weekday with Monday = 0 .. Sunday = 6, as Python `date.weekday()`.
Rata die 1 (0001-01-01) is a Monday. -/
def weekday (rd : Nat) : Nat :=
  (rd + 6) % 7

/-- Inverse of `toRD`: the `(year, month, day)` of a rata-die number.
Standard civil-from-days algorithm over a 400-year cycle, shifted to a
March-based year so leap days fall at the end of the cycle year. -/
def fromRD (rd : Nat) : Nat × Nat × Nat :=
  let z := rd + 305
  let era := z / 146097
  let doe := z % 146097
  let yoe := (doe - doe / 1460 + doe / 36524 - doe / 146096) / 365
  let y := yoe + era * 400
  let doy := doe - (365 * yoe + yoe / 4 - yoe / 100)
  let mp := (5 * doy + 2) / 153
  let d := doy - (153 * mp + 2) / 5 + 1
  let m := if mp < 10 then mp + 3 else mp - 9
  if m ≤ 2 then (y + 1, m, d) else (y, m, d)

/-- Calendar year of a date, as Python `date.year`. -/
def yearOf (rd : Nat) : Nat := (fromRD rd).1

/-- Calendar month of a date, as Python `date.month`. -/
def monthOf (rd : Nat) : Nat := (fromRD rd).2.1

/-- Day of month of a date, as Python `date.day`. -/
def dayOf (rd : Nat) : Nat := (fromRD rd).2.2

/-- The Thursday of the ISO week containing `rd` (weeks run Monday-Sunday). -/
def isoThursday (rd : Nat) : Nat := rd + 3 - weekday rd

/-- ISO week-based year, as Python `date.isocalendar()[0]`: the calendar
year of the week's Thursday. -/
def isoWeekYear (rd : Nat) : Nat := yearOf (isoThursday rd)

/-- ISO week number, as Python `date.isocalendar()[1]`: week 1 is the week
containing the year's first Thursday. -/
def isoWeekNum (rd : Nat) : Nat :=
  (isoThursday rd - toRD (isoWeekYear rd) 1 1) / 7 + 1

/-- Full English month name, as Python `strftime("%B")`. -/
def monthName (m : Nat) : String :=
  match m with
  | 1 => "January" | 2 => "February" | 3 => "March" | 4 => "April"
  | 5 => "May" | 6 => "June" | 7 => "July" | 8 => "August"
  | 9 => "September" | 10 => "October" | 11 => "November" | 12 => "December"
  | _ => ""

/-- Three-letter English month abbreviation, as Python `strftime("%b")`. -/
def monthAbbrev (m : Nat) : String :=
  match m with
  | 1 => "Jan" | 2 => "Feb" | 3 => "Mar" | 4 => "Apr"
  | 5 => "May" | 6 => "Jun" | 7 => "Jul" | 8 => "Aug"
  | 9 => "Sep" | 10 => "Oct" | 11 => "Nov" | 12 => "Dec"
  | _ => ""

/-- Calendar sanity checks tying the embedding to known dates:
2025-07-01 was a Tuesday, 2025-07-07 a Monday, and `fromRD` inverts
`toRD` on dates used by the program. -/
theorem calendar_sanity :
    weekday (toRD 2025 7 1) = 1 ∧ weekday (toRD 2025 7 7) = 0 ∧
    fromRD (toRD 2025 7 7) = (2025, 7, 7) ∧
    fromRD (toRD 2026 12 31) = (2026, 12, 31) ∧
    fromRD (toRD 2026 1 1) = (2026, 1, 1) ∧
    fromRD (toRD 2024 2 29) = (2024, 2, 29) ∧
    fromRD (toRD 2025 12 29) = (2025, 12, 29) := by
  decide

/-! ## Layout constants

Integer lengths in hundredths of a centimetre, translated from the
module-level constants of the source (`cm` becomes 100). -/

def FILOFAX_WIDTH : ℤ := 12 * 100
def FILOFAX_HEIGHT : ℤ := 8 * 100
def HOLE_PUNCH_MARGIN : ℤ := 1 * 100

def DAY_COL_WIDTH : ℤ := 1 * 100
def MONTH_COL_WIDTH : ℤ := 350
def WEEK_COL_WIDTH : ℤ := 150
def TOTAL_WIDTH : ℤ := 7 * DAY_COL_WIDTH + MONTH_COL_WIDTH + WEEK_COL_WIDTH
def MARGIN_LEFT : ℤ := (FILOFAX_WIDTH - TOTAL_WIDTH) / 2

/-- Letter paper is 8.5 in by 11 in, i.e. 21.59 cm by 27.94 cm exactly. -/
def LETTER_WIDTH : ℤ := 2159
def LETTER_HEIGHT : ℤ := 2794
def CUT_MARGIN : ℤ := 20
def SHEETS_PER_PAGE : ℕ := 3
def SHEET_MARGIN : ℤ := 1 * 100
def SHEET_SPACING : ℤ := 20

/-! ## Sheet renderer (embedding of `draw_filofax_sheet` and helpers) -/

/-- List of month numbers touched by the seven days of the week starting
at `rd`; models the Python set `months_in_week` (`dedup` gives one entry
per distinct month, so its length is the set's cardinality). -/
def monthsInWeek (rd : Nat) : List Nat :=
  ((List.range 7).map fun i => monthOf (rd + i)).dedup

/-- Month label of the sheet for the week starting at `rd`, translated
from the `month_str` computation of `draw_filofax_sheet`. -/
def monthStr (rd : Nat) : String :=
  if (monthsInWeek rd).length = 1 then
    monthName (monthOf (rd + 3))
  else
    monthAbbrev (monthOf rd) ++ " / " ++ monthAbbrev (monthOf (rd + 6))

/-- Week-number label of the sheet, from the f-string `"W{week_num}"`. -/
def weekText (rd : Nat) : String := "W" ++ toString (isoWeekNum rd)

/-- Year label of the sheet, from `str(year)` with `year = current_date.year`. -/
def yearText (rd : Nat) : String := toString (yearOf rd)

/-- English day-name header of column `i` (0 = Monday). -/
def dayName (i : Nat) : String :=
  match i with
  | 0 => "Mon" | 1 => "Tue" | 2 => "Wed" | 3 => "Thu"
  | 4 => "Fri" | 5 => "Sat" | 6 => "Sun"
  | _ => ""

/-- Every centred text drawn by `draw_filofax_sheet` for the week starting
at `rd`, as `(x, y, text)` triples in sheet-local coordinates, in the
order the source issues the `drawCentredString` calls. -/
def sheetTexts (rd : Nat) : List (ℤ × ℤ × String) :=
  ((List.range 7).map fun (i : ℕ) =>
    (MARGIN_LEFT + (i : ℤ) * DAY_COL_WIDTH + DAY_COL_WIDTH / 2,
     FILOFAX_HEIGHT - HOLE_PUNCH_MARGIN - 40, dayName i))
  ++ ((List.range 7).map fun (i : ℕ) =>
    (MARGIN_LEFT + (i : ℤ) * DAY_COL_WIDTH + DAY_COL_WIDTH / 2,
     FILOFAX_HEIGHT - HOLE_PUNCH_MARGIN - 90, toString (dayOf (rd + i))))
  ++ [(MARGIN_LEFT + 7 * DAY_COL_WIDTH + MONTH_COL_WIDTH / 2,
       FILOFAX_HEIGHT - HOLE_PUNCH_MARGIN - 50, monthStr rd),
      (MARGIN_LEFT + 7 * DAY_COL_WIDTH + MONTH_COL_WIDTH + WEEK_COL_WIDTH / 2,
       FILOFAX_HEIGHT - HOLE_PUNCH_MARGIN - 50, weekText rd),
      (MARGIN_LEFT + 7 * DAY_COL_WIDTH + MONTH_COL_WIDTH + WEEK_COL_WIDTH / 2,
       FILOFAX_HEIGHT - HOLE_PUNCH_MARGIN - 90, yearText rd)]

/-- A straight line segment drawn on the canvas, with its two endpoints. -/
structure Seg where
  x1 : ℤ
  y1 : ℤ
  x2 : ℤ
  y2 : ℤ
deriving DecidableEq

/-- The segments drawn by `draw_grid`, in source order: the top hole-punch
line, the header/body divider, and the vertical lines (left edge, the
eight day-column lines, the line after the day columns, the line after
the month column, and the right edge). -/
def gridSegments : List Seg :=
  [⟨0, FILOFAX_HEIGHT - HOLE_PUNCH_MARGIN, FILOFAX_WIDTH, FILOFAX_HEIGHT - HOLE_PUNCH_MARGIN⟩,
   ⟨0, FILOFAX_HEIGHT - HOLE_PUNCH_MARGIN - 100, FILOFAX_WIDTH, FILOFAX_HEIGHT - HOLE_PUNCH_MARGIN - 100⟩,
   ⟨0, 0, 0, FILOFAX_HEIGHT - HOLE_PUNCH_MARGIN⟩]
  ++ ((List.range 8).map fun (i : ℕ) =>
    ⟨MARGIN_LEFT + (i : ℤ) * DAY_COL_WIDTH, 0,
     MARGIN_LEFT + (i : ℤ) * DAY_COL_WIDTH, FILOFAX_HEIGHT - HOLE_PUNCH_MARGIN⟩)
  ++ [⟨MARGIN_LEFT + 7 * DAY_COL_WIDTH, 0,
      MARGIN_LEFT + 7 * DAY_COL_WIDTH, FILOFAX_HEIGHT - HOLE_PUNCH_MARGIN⟩,
     ⟨MARGIN_LEFT + 7 * DAY_COL_WIDTH + MONTH_COL_WIDTH, 0,
      MARGIN_LEFT + 7 * DAY_COL_WIDTH + MONTH_COL_WIDTH, FILOFAX_HEIGHT - HOLE_PUNCH_MARGIN⟩,
     ⟨FILOFAX_WIDTH, 0, FILOFAX_WIDTH, FILOFAX_HEIGHT - HOLE_PUNCH_MARGIN⟩]

/-- Vertical position of the header/body divider drawn by `draw_grid`. -/
def dividerY : ℤ := FILOFAX_HEIGHT - HOLE_PUNCH_MARGIN - 100

/-- Segment `s` runs between vertical positions `a` and `b` (in either
direction). -/
def spansFromTo (s : Seg) (a b : ℤ) : Prop :=
  (s.y1 = a ∧ s.y2 = b) ∨ (s.y1 = b ∧ s.y2 = a)

instance (s : Seg) (a b : ℤ) : Decidable (spansFromTo s a b) := by
  unfold spansFromTo; infer_instance

/-! ## Fine horizontal ruling (embedding of `draw_horizontal_lines`) -/

/-- Vertical start position of the fine ruling: 0.5 cm below the header
row divider. -/
def start_y : ℤ := FILOFAX_HEIGHT - HOLE_PUNCH_MARGIN - 100 - 50

/-- Number of ruling lines, from `int(start_y / (0.5 * cm))`; the operands
are positive so Python's truncating conversion is floor division. -/
def num_lines : ℕ := (start_y / 50).toNat

/-- Vertical positions of the fine ruling lines actually drawn: the loop
steps down by 0.5 cm and breaks at the first negative position. -/
def hLines : List ℤ :=
  (((List.range num_lines).map fun i => start_y - (i : ℤ) * 50).takeWhile
    fun y => decide (0 ≤ y))

/-! ## Main loop (embedding of `create_filofax_calendar`) -/

/-- Fixed start of the date range, `datetime(2025, 7, 1)`. -/
def start_rd : Nat := toRD 2025 7 1

/-- Fixed end of the date range, `datetime(2026, 12, 31)`. -/
def end_rd : Nat := toRD 2026 12 31

/-- First Monday on or after `d`, translated from the source's initial
`while current_date.weekday() != 0` loop. -/
def findFirstMonday (d : Nat) : Nat :=
  if weekday d = 0 then d else findFirstMonday (d + 1)
termination_by (7 - weekday d) % 7
decreasing_by
  unfold weekday at *
  omega

/-- Canvas-level events issued by the main loop that matter for page
layout: `pageBreak` is a `c.showPage()` call, `sheet monday slot` is the
drawing of one Filofax sheet for the week of `monday` at vertical slot
`slot` (the source's `page_position`) on the current page. -/
inductive Ev where
  | pageBreak : Ev
  | sheet (monday : Nat) (slot : Nat) : Ev
deriving DecidableEq

/-- One step of the main `while current_date <= end_date` loop per unit
of fuel; `curYear` and `count` are the source's `current_year` and
`sheet_count`.  The fuel only bounds the number of iterations (the date
advances by 7 each step, so any fuel past the number of remaining weeks
leaves the result unchanged); the source's loop is bounded by the date
condition alone. -/
def loopAux : Nat → Nat → Nat → Nat → Nat → List Ev
  | 0, _, _, _, _ => []
  | fuel + 1, d, endD, curYear, count =>
    if d ≤ endD then
      let curYear' := if yearOf d ≠ curYear then yearOf d else curYear
      let count' := if yearOf d ≠ curYear then 0 else count
      let pos := count' % 3
      if pos = 0 then
        Ev.pageBreak :: Ev.sheet d 0 :: loopAux fuel (d + 7) endD curYear' 1
      else
        Ev.sheet d pos :: loopAux fuel (d + 7) endD curYear' (count' + 1)
    else []

/-- The Monday the program actually starts from. -/
def first_monday : Nat := findFirstMonday start_rd

/-- Fuel that strictly exceeds the number of loop iterations. -/
def run_fuel : Nat := end_rd + 8 - first_monday

/-- The full event trace of the program's single run, starting from the
source's initial state `current_year = current_date.year`,
`sheet_count = 0`. -/
def run_trace : List Ev := loopAux run_fuel first_monday end_rd (yearOf first_monday) 0

/-- The `(monday, slot)` pairs of all sheets drawn, in order. -/
def sheetEvs (t : List Ev) : List (Nat × Nat) :=
  t.filterMap fun e =>
    match e with
    | .sheet d s => some (d, s)
    | .pageBreak => none

/-- The Mondays of all generated weeks, in order. -/
def sheetMondays : List Nat := (sheetEvs run_trace).map Prod.fst

/-- Splits an event trace into the pages of the output document.
`c.showPage()` commits the page accumulated so far (a blank page when
nothing was drawn on it), and the final `c.save()` commits any pending
drawn content. -/
def pagesAux : List Ev → List (Nat × Nat) → List (List (Nat × Nat))
  | [], cur => if cur = [] then [] else [cur]
  | .pageBreak :: rest, cur => cur :: pagesAux rest []
  | .sheet d s :: rest, cur => pagesAux rest (cur ++ [(d, s)])

/-- The pages of the output document, each the list of sheets it holds. -/
def pages (t : List Ev) : List (List (Nat × Nat)) := pagesAux t []

/-- Top margin centring three sheets and two spacings on the page. -/
def top_margin : ℤ := (LETTER_HEIGHT - (3 * FILOFAX_HEIGHT + 2 * SHEET_SPACING)) / 2

/-- Vertical offset of the sheet at slot `pos`, from the source's
`y_offset` computation. -/
def yOffset (pos : Nat) : ℤ :=
  LETTER_HEIGHT - top_margin - ((pos : ℤ) + 1) * FILOFAX_HEIGHT - (pos : ℤ) * SHEET_SPACING

/-- The vertical extents `[yOffset s, yOffset s + FILOFAX_HEIGHT]` of the
sheets at slots `s1` and `s2` do not intersect. -/
def sheetsDisjoint (s1 s2 : Nat) : Prop :=
  yOffset s1 + FILOFAX_HEIGHT < yOffset s2 ∨ yOffset s2 + FILOFAX_HEIGHT < yOffset s1

instance (s1 s2 : Nat) : Decidable (sheetsDisjoint s1 s2) := by
  unfold sheetsDisjoint; infer_instance

/-! ## Canvas state (save / translate / restore semantics) -/

/-- Positioned drawing events: a whole sheet (with its cut marks) drawn
with its local origin at the given absolute position. -/
inductive PEv where
  | sheetAt (monday : Nat) (ox oy : ℤ) : PEv
  | marksAt (ox oy : ℤ) : PEv
deriving DecidableEq

/-- Abstract canvas: the current coordinate translation, the saved-state
stack, and the drawing events issued so far. -/
structure Canvas where
  tx : ℤ
  ty : ℤ
  stack : List (ℤ × ℤ)
  events : List PEv
deriving DecidableEq

/-- Model of `canvas.saveState()`: push the current transform. -/
def saveState (c : Canvas) : Canvas :=
  { c with stack := (c.tx, c.ty) :: c.stack }

/-- Model of `canvas.translate(dx, dy)`. -/
def translate (dx dy : ℤ) (c : Canvas) : Canvas :=
  { c with tx := c.tx + dx, ty := c.ty + dy }

/-- Model of `canvas.restoreState()`: pop the saved transform.  The
program only restores after a matching save, so the stack is never empty
here (reportlab would raise on an unmatched restore). -/
def restoreState (c : Canvas) : Canvas :=
  match c.stack with
  | [] => c
  | (x, y) :: rest => { c with tx := x, ty := y, stack := rest }

/-- Record one drawing event. -/
def emit (e : PEv) (c : Canvas) : Canvas :=
  { c with events := c.events ++ [e] }

/-- The per-sheet body of the main loop (source lines 66-77): save the
state, translate to the sheet's offset, draw the sheet and its cutting
marks at the translated origin, and restore the state. -/
def sheetIteration (d : Nat) (pos : Nat) (c : Canvas) : Canvas :=
  let c1 := saveState c
  let c2 := translate SHEET_MARGIN (yOffset pos) c1
  let c3 := emit (.sheetAt d c2.tx c2.ty) c2
  let c4 := emit (.marksAt c3.tx c3.ty) c3
  restoreState c4

/-! ## Helper lemmas -/

theorem findFirstMonday_weekday (d : Nat) : weekday (findFirstMonday d) = 0 := by
  induction d using findFirstMonday.induct with
  | case1 d h => rw [findFirstMonday, if_pos h]; exact h
  | case2 d h ih => rw [findFirstMonday, if_neg h]; exact ih

theorem findFirstMonday_ge (d : Nat) : d ≤ findFirstMonday d := by
  induction d using findFirstMonday.induct with
  | case1 d h => rw [findFirstMonday, if_pos h]
  | case2 d h ih => rw [findFirstMonday, if_neg h]; omega

theorem findFirstMonday_min (d e : Nat) (he : weekday e = 0) :
    d ≤ e → findFirstMonday d ≤ e := by
  induction d using findFirstMonday.induct with
  | case1 d h => intro hde; rw [findFirstMonday, if_pos h]; exact hde
  | case2 d h ih =>
    intro hde
    rw [findFirstMonday, if_neg h]
    have hne : d ≠ e := fun hdeq => h (hdeq ▸ he)
    exact ih (by omega)

theorem first_monday_eq : first_monday = 739439 := by
  have h0 : weekday (findFirstMonday start_rd) = 0 := findFirstMonday_weekday start_rd
  have h1 : start_rd ≤ findFirstMonday start_rd := findFirstMonday_ge start_rd
  have h2 : findFirstMonday start_rd ≤ 739439 :=
    findFirstMonday_min start_rd 739439 (by decide) (by decide)
  have h3 : start_rd = 739433 := by decide
  unfold first_monday
  unfold weekday at h0
  omega

theorem run_trace_eq : run_trace = loopAux 550 739439 739981 2025 0 := by
  have h1 : end_rd = 739981 := by decide
  have h2 : yearOf 739439 = 2025 := by decide
  unfold run_trace run_fuel
  rw [first_monday_eq, h1, h2]

/-- Computing `sheetEvs` over the two kinds of trace step. -/
theorem sheetEvs_nil : sheetEvs [] = [] := rfl

theorem sheetEvs_break (t : List Ev) : sheetEvs (Ev.pageBreak :: t) = sheetEvs t := rfl

theorem sheetEvs_sheet (d s : Nat) (t : List Ev) :
    sheetEvs (Ev.sheet d s :: t) = (d, s) :: sheetEvs t := rfl

/-- The sequence of week-start dates the loop walks, separated from the
page bookkeeping: `d, d + 7, d + 14, ...` while the date stays at or
before `endD`. -/
def mondaysAux : Nat → Nat → Nat → List Nat
  | 0, _, _ => []
  | fuel + 1, d, endD => if d ≤ endD then d :: mondaysAux fuel (d + 7) endD else []

/-- The sheet dates of a loop trace are the walked Mondays, whatever the
year and counter state. -/
theorem loopAux_dates (fuel : Nat) : ∀ d endD y c,
    (sheetEvs (loopAux fuel d endD y c)).map Prod.fst = mondaysAux fuel d endD := by
  induction fuel with
  | zero => intro d endD y c; rfl
  | succ fuel ih =>
    intro d endD y c
    rw [loopAux, mondaysAux]
    dsimp only
    split
    · split <;> split <;>
        first
          | rw [sheetEvs_break, sheetEvs_sheet, List.map_cons, ih]
          | rw [sheetEvs_sheet, List.map_cons, ih]
    · rfl

theorem mondaysAux_eq_nil (fuel d endD : Nat) :
    mondaysAux fuel d endD = [] ↔ fuel = 0 ∨ endD < d := by
  match fuel with
  | 0 => simp [mondaysAux]
  | fuel + 1 =>
    rw [mondaysAux]
    split <;> simp <;> omega

theorem mondaysAux_head (fuel d endD : Nat) (hf : 0 < fuel) (hd : d ≤ endD) :
    (mondaysAux fuel d endD).head? = some d := by
  match fuel with
  | fuel + 1 => rw [mondaysAux, if_pos hd]; rfl

/-- Consecutive walked Mondays differ by exactly 7 days. -/
theorem mondaysAux_chain (fuel : Nat) : ∀ d endD,
    List.Chain' (fun a b => b = a + 7) (mondaysAux fuel d endD) := by
  induction fuel with
  | zero => intro d endD; simp [mondaysAux]
  | succ fuel ih =>
    intro d endD
    rw [mondaysAux]
    split
    · rw [List.chain'_cons']
      refine ⟨?_, ih (d + 7) endD⟩
      intro b hb
      by_cases hfp : 0 < fuel ∧ d + 7 ≤ endD
      · rw [mondaysAux_head fuel (d + 7) endD hfp.1 hfp.2] at hb
        simp at hb
        omega
      · rw [(mondaysAux_eq_nil fuel (d + 7) endD).mpr (by omega)] at hb
        simp at hb
    · simp

/-- Membership of the walked-Monday list, given enough fuel: exactly the
dates reached from `d` in 7-day steps without passing `endD`. -/
theorem mondaysAux_mem (fuel : Nat) : ∀ d endD, endD < d + 7 * fuel → ∀ m,
    (m ∈ mondaysAux fuel d endD ↔ d ≤ m ∧ m ≤ endD ∧ (m - d) % 7 = 0) := by
  induction fuel with
  | zero =>
    intro d endD hf m
    simp [mondaysAux]
    omega
  | succ fuel ih =>
    intro d endD hf m
    rw [mondaysAux]
    split
    · rename_i hd
      rw [List.mem_cons, ih (d + 7) endD (by omega) m]
      omega
    · rename_i hd
      simp
      omega

/-- One loop iteration leaves the canvas transform and stack unchanged
and appends exactly the sheet and cut-mark events, placed at the
incoming transform plus the slot offset. -/
theorem sheetIteration_state (d pos : Nat) (c : Canvas) :
    sheetIteration d pos c =
      { c with events := c.events ++
          [PEv.sheetAt d (c.tx + SHEET_MARGIN) (c.ty + yOffset pos),
           PEv.marksAt (c.tx + SHEET_MARGIN) (c.ty + yOffset pos)] } := by
  simp [sheetIteration, saveState, translate, emit, restoreState]

/-- Folding any sequence of loop iterations preserves transform and stack. -/
theorem foldIterations_state (l : List (Nat × Nat)) : ∀ c : Canvas,
    (l.foldl (fun c p => sheetIteration p.1 p.2 c) c).tx = c.tx ∧
    (l.foldl (fun c p => sheetIteration p.1 p.2 c) c).ty = c.ty ∧
    (l.foldl (fun c p => sheetIteration p.1 p.2 c) c).stack = c.stack := by
  induction l with
  | nil => intro c; exact ⟨rfl, rfl, rfl⟩
  | cons p l ih =>
    intro c
    rw [List.foldl_cons, sheetIteration_state]
    exact ih _

/-! ## Claims -/

set_option maxRecDepth 8000

/-- C4: for every start date, the first generated week's Monday is the
smallest date on or after the start date whose weekday is Monday. -/
theorem first_monday_minimal (d : Nat) :
    weekday (findFirstMonday d) = 0 ∧ d ≤ findFirstMonday d ∧
    ∀ e, d ≤ e → weekday e = 0 → findFirstMonday d ≤ e :=
  ⟨findFirstMonday_weekday d, findFirstMonday_ge d,
   fun e hde he => findFirstMonday_min d e he hde⟩

/-- Witness for C4 at the program's start date 2025-07-01, with the
Monday 2025-07-07 (rata die 739439) as the comparison date. -/
theorem first_monday_minimal_witness :
    weekday (findFirstMonday start_rd) = 0 ∧ start_rd ≤ findFirstMonday start_rd ∧
    findFirstMonday start_rd ≤ 739439 :=
  ⟨(first_monday_minimal start_rd).1, (first_monday_minimal start_rd).2.1,
   (first_monday_minimal start_rd).2.2 739439 (by decide) (by decide)⟩

/-- C5: consecutive generated Mondays differ by exactly 7 days, the
sequence is strictly ascending and finite (it is a list), and a Monday
at or after the first one is generated exactly when it is at or before
the end date. -/
theorem mondays_progression :
    List.Chain' (fun a b => b = a + 7) sheetMondays ∧
    List.Pairwise (· < ·) sheetMondays ∧
    ∀ m, weekday m = 0 → first_monday ≤ m → (m ∈ sheetMondays ↔ m ≤ end_rd) := by
  have hdates : sheetMondays = mondaysAux run_fuel first_monday end_rd :=
    loopAux_dates run_fuel first_monday end_rd (yearOf first_monday) 0
  have hfm0 : weekday first_monday = 0 := findFirstMonday_weekday start_rd
  have hfuel : end_rd < first_monday + 7 * run_fuel := by
    have h1 : first_monday = 739439 := first_monday_eq
    have h2 : end_rd = 739981 := by decide
    unfold run_fuel
    omega
  refine ⟨?_, ?_, ?_⟩
  · rw [hdates]; exact mondaysAux_chain run_fuel first_monday end_rd
  · have hc : List.Chain' (· < ·) sheetMondays := by
      rw [hdates]
      exact (mondaysAux_chain run_fuel first_monday end_rd).imp fun h => by omega
    exact List.chain'_iff_pairwise.mp hc
  · intro m hm0 hge
    rw [hdates, mondaysAux_mem run_fuel first_monday end_rd hfuel m]
    unfold weekday at hm0 hfm0
    omega

/-- Witness for C5: the Monday 2025-07-14 (rata die 739446) is generated. -/
theorem mondays_progression_witness : 739446 ∈ sheetMondays :=
  (mondays_progression.2.2 739446 (by decide)
    (by rw [first_monday_eq]; decide)).mpr (by decide)

/-- C7: on every run a page break is emitted before the very first sheet
is drawn; the first loop iteration has slot 0, so the first trace event
is the page break and the second is the first sheet. -/
theorem leading_page_break :
    run_trace.head? = some Ev.pageBreak ∧
    run_trace.tail.head? = some (Ev.sheet 739439 0) := by
  rw [run_trace_eq]
  decide

/-- C10: each loop iteration brackets its drawing between a state save, a
translate and a state restore, so it returns the canvas transform and
stack to their prior values and places its sheet at the incoming
transform plus its own slot offset; folding any run of iterations
likewise leaves transform and stack unchanged. -/
theorem canvas_transform_preserved :
    (∀ (c : Canvas) (d pos : Nat),
      (sheetIteration d pos c).tx = c.tx ∧ (sheetIteration d pos c).ty = c.ty ∧
      (sheetIteration d pos c).stack = c.stack ∧
      (sheetIteration d pos c).events = c.events ++
        [PEv.sheetAt d (c.tx + SHEET_MARGIN) (c.ty + yOffset pos),
         PEv.marksAt (c.tx + SHEET_MARGIN) (c.ty + yOffset pos)]) ∧
    (∀ (l : List (Nat × Nat)) (c : Canvas),
      (l.foldl (fun c p => sheetIteration p.1 p.2 c) c).tx = c.tx ∧
      (l.foldl (fun c p => sheetIteration p.1 p.2 c) c).ty = c.ty ∧
      (l.foldl (fun c p => sheetIteration p.1 p.2 c) c).stack = c.stack) := by
  refine ⟨fun c d pos => ?_, fun l c => foldIterations_state l c⟩
  rw [sheetIteration_state]
  exact ⟨rfl, rfl, rfl, rfl⟩

/-- A list is a 7-day chain exactly when every adjacent pair (taken by
zipping the list with its tail) is related; the zip form has a
kernel-evaluable decidability instance. -/
theorem chain_iff_zip {α : Type} (R : α → α → Prop) :
    ∀ l : List α, List.Chain' R l ↔ ∀ p ∈ l.zip l.tail, R p.1 p.2
  | [] => by simp
  | [a] => by simp
  | a :: b :: t => by
    rw [List.chain'_cons, chain_iff_zip R (b :: t)]
    simp [List.zip_cons_cons]

/-- Spec-side month label, following the claim's words: when all seven
days of the week fall in one calendar month (same year and month), show
the full English name of the month containing Monday plus 3 days;
otherwise show the 3-letter abbreviation of Monday's month, the literal
separator, and the 3-letter abbreviation of the month of Monday plus 6
days. -/
def specMonthLabel (rd : Nat) : String :=
  if (List.range 7).all (fun i => monthOf (rd + i) == monthOf rd && yearOf (rd + i) == yearOf rd) then
    monthName (monthOf (rd + 3))
  else
    monthAbbrev (monthOf rd) ++ " / " ++ monthAbbrev (monthOf (rd + 6))

/-- C1: for every generated Monday, the month label the sheet draws (in
the month column of its header) agrees with the spec's label: the full
month name of the Thursday's month when all seven days share one
calendar month, and the two 3-letter abbreviations joined by the literal
separator otherwise. -/
theorem month_label_correct : ∀ rd ∈ sheetMondays,
    monthStr rd = specMonthLabel rd ∧
    (MARGIN_LEFT + 7 * DAY_COL_WIDTH + MONTH_COL_WIDTH / 2,
     FILOFAX_HEIGHT - HOLE_PUNCH_MARGIN - 50, monthStr rd) ∈ sheetTexts rd := by
  unfold sheetMondays
  rw [run_trace_eq]
  decide

/-- Witness for C1 at the first generated Monday, 2025-07-07. -/
theorem month_label_correct_witness :
    monthStr 739439 = specMonthLabel 739439 ∧
    (MARGIN_LEFT + 7 * DAY_COL_WIDTH + MONTH_COL_WIDTH / 2,
     FILOFAX_HEIGHT - HOLE_PUNCH_MARGIN - 50, monthStr 739439) ∈ sheetTexts 739439 :=
  month_label_correct 739439 (by unfold sheetMondays; rw [run_trace_eq]; decide)

/-- Sheet event at slot 0. -/
def isSlotZeroSheet : Ev → Bool
  | .sheet _ s => s == 0
  | .pageBreak => false

/-- Page-break event. -/
def isBreak : Ev → Bool
  | .pageBreak => true
  | .sheet _ _ => false

/-- C2: every sheet's slot is in 0..2, the first sheet has slot 0,
between consecutive sheets the slot advances cyclically by one except
that a calendar-year change resets it to 0, and an event is a slot-0
sheet exactly when the event immediately before it is a page break (the
trace starts with a page break and never ends with one, so resets and
page breaks coincide). -/
theorem sheet_slot_invariants :
    (∀ p ∈ sheetEvs run_trace, p.2 < 3) ∧
    (sheetEvs run_trace).head?.map Prod.snd = some 0 ∧
    List.Chain' (fun a b => b.2 = if yearOf b.1 = yearOf a.1 then (a.2 + 1) % 3 else 0)
      (sheetEvs run_trace) ∧
    run_trace.head? = some Ev.pageBreak ∧
    run_trace.getLast? ≠ some Ev.pageBreak ∧
    List.Chain' (fun a b => isSlotZeroSheet b = isBreak a) run_trace := by
  refine ⟨?_, ?_, (chain_iff_zip _ _).mpr ?_, ?_, ?_, (chain_iff_zip _ _).mpr ?_⟩ <;>
    rw [run_trace_eq] <;> decide

/-- Witness for C2: the slot of the first sheet drawn is below 3. -/
theorem sheet_slot_invariants_witness : ((739439 : Nat), (0 : Nat)).2 < 3 :=
  sheet_slot_invariants.1 (739439, 0) (by rw [run_trace_eq]; decide)

/-- Counterexample to C3 as stated: the run produces 28 pages, and the
10th page (index 9) is not the final one yet holds only 2 sheets — the
weeks of 2025-12-22 and 2025-12-29, cut short by the year-change reset —
so not every non-final page holds exactly 3 sheets. -/
theorem pages_not_all_full :
    (pages run_trace).length = 28 ∧
    (pages run_trace)[9]? = some [(739607, 0), (739614, 1)] ∧
    ¬ ∀ p ∈ (pages run_trace).dropLast, p.length = 3 := by
  rw [run_trace_eq]
  decide

/-- C3 as amended: no two sheets of a page overlap and no page holds
more than 3 sheets; every page holds exactly 3 sheets except the leading
blank page emitted by the initial page break (0 sheets), the page
closing calendar year 2025 (2 sheets, forced by the year-transition
reset), and the final page (1 sheet). -/
theorem pages_shape :
    (∀ p ∈ pages run_trace, p.length ≤ 3 ∧
      List.Pairwise (fun a b => sheetsDisjoint a.2 b.2) p) ∧
    (pages run_trace).map List.length =
      [0, 3, 3, 3, 3, 3, 3, 3, 3, 2] ++ List.replicate 17 3 ++ [1] := by
  rw [run_trace_eq]
  decide

/-- Witness for C3 as amended, at the first full page of the run. -/
theorem pages_shape_witness :
    ([(739439, 0), (739446, 1), (739453, 2)] : List (Nat × Nat)).length ≤ 3 ∧
    List.Pairwise (fun a b => sheetsDisjoint a.2 b.2)
      ([(739439, 0), (739446, 1), (739453, 2)] : List (Nat × Nat)) :=
  pages_shape.1 [(739439, 0), (739446, 1), (739453, 2)] (by rw [run_trace_eq]; decide)

/-- C6: the number of fine ruling lines drawn below the header equals
the floor of `start_y` divided by 0.5 cm (that quotient is 11), and no
ruling line is drawn at a negative vertical position (the loop's break
never fires). -/
theorem hline_count :
    hLines.length = num_lines ∧ num_lines = (start_y / 50).toNat ∧ start_y / 50 = 11 ∧
    ∀ y ∈ hLines, 0 ≤ y := by
  decide

/-- Witness for C6 at the topmost ruling line. -/
theorem hline_count_witness : (0 : ℤ) ≤ start_y :=
  hline_count.2.2.2 start_y (by decide)

/-- Counterexample to C8 as stated: the left-edge vertical separator is
drawn from the bottom edge up to the hole-punch line (1 cm below the
sheet top), not up to the header/body divider, so not every vertical
separator runs exactly from the divider to the bottom edge. -/
theorem grid_vertical_top_cex :
    Seg.mk 0 0 0 (FILOFAX_HEIGHT - HOLE_PUNCH_MARGIN) ∈ gridSegments ∧
    FILOFAX_HEIGHT - HOLE_PUNCH_MARGIN ≠ dividerY ∧
    ¬ ∀ s ∈ gridSegments, s.x1 = s.x2 → spansFromTo s 0 dividerY := by
  decide

/-- C8 as amended: every vertical separator of the ruled grid extends
from the sheet's bottom edge up to the top hole-punch line, and in
particular covers the whole span from the header/body divider down to
the bottom edge. -/
theorem grid_vertical_span : ∀ s ∈ gridSegments, s.x1 = s.x2 →
    spansFromTo s 0 (FILOFAX_HEIGHT - HOLE_PUNCH_MARGIN) ∧
    min s.y1 s.y2 ≤ 0 ∧ dividerY ≤ max s.y1 s.y2 := by
  decide

/-- Witness for C8 as amended, at the left-edge vertical separator. -/
theorem grid_vertical_span_witness :
    spansFromTo (Seg.mk 0 0 0 (FILOFAX_HEIGHT - HOLE_PUNCH_MARGIN)) 0
      (FILOFAX_HEIGHT - HOLE_PUNCH_MARGIN) ∧
    min (0 : ℤ) (FILOFAX_HEIGHT - HOLE_PUNCH_MARGIN) ≤ 0 ∧
    dividerY ≤ max (0 : ℤ) (FILOFAX_HEIGHT - HOLE_PUNCH_MARGIN) :=
  grid_vertical_span (Seg.mk 0 0 0 (FILOFAX_HEIGHT - HOLE_PUNCH_MARGIN))
    (by decide) (by decide)

/-- C9: every generated Monday's sheet draws the week label (the letter
W followed by the ISO week number) and, just below it, the Monday's
calendar year; for Monday 2025-12-29, whose ISO week-year 2026 differs
from its calendar year 2025, the sheet therefore pairs the label W1 with
the year 2025. -/
theorem week_year_labels :
    (∀ rd ∈ sheetMondays,
      (MARGIN_LEFT + 7 * DAY_COL_WIDTH + MONTH_COL_WIDTH + WEEK_COL_WIDTH / 2,
       FILOFAX_HEIGHT - HOLE_PUNCH_MARGIN - 50, "W" ++ toString (isoWeekNum rd)) ∈ sheetTexts rd ∧
      (MARGIN_LEFT + 7 * DAY_COL_WIDTH + MONTH_COL_WIDTH + WEEK_COL_WIDTH / 2,
       FILOFAX_HEIGHT - HOLE_PUNCH_MARGIN - 90, toString (yearOf rd)) ∈ sheetTexts rd) ∧
    toRD 2025 12 29 ∈ sheetMondays ∧
    isoWeekNum (toRD 2025 12 29) = 1 ∧ isoWeekYear (toRD 2025 12 29) = 2026 ∧
    yearOf (toRD 2025 12 29) = 2025 ∧
    weekText (toRD 2025 12 29) = "W1" ∧ yearText (toRD 2025 12 29) = "2025" := by
  unfold sheetMondays
  rw [run_trace_eq]
  decide

/-- Witness for C9 at the Monday 2025-12-29. -/
theorem week_year_labels_witness :
    (MARGIN_LEFT + 7 * DAY_COL_WIDTH + MONTH_COL_WIDTH + WEEK_COL_WIDTH / 2,
     FILOFAX_HEIGHT - HOLE_PUNCH_MARGIN - 50,
     "W" ++ toString (isoWeekNum (toRD 2025 12 29))) ∈ sheetTexts (toRD 2025 12 29) ∧
    (MARGIN_LEFT + 7 * DAY_COL_WIDTH + MONTH_COL_WIDTH + WEEK_COL_WIDTH / 2,
     FILOFAX_HEIGHT - HOLE_PUNCH_MARGIN - 90,
     toString (yearOf (toRD 2025 12 29))) ∈ sheetTexts (toRD 2025 12 29) :=
  week_year_labels.1 (toRD 2025 12 29)
    (by unfold sheetMondays; rw [run_trace_eq]; decide)

end Filofax
